import Mathlib

/-!
Verification of the relaying and submission-ordering subsystem of the
monadblitz repository (relayer `src/index.ts`, the shared client library
`lib/arena.ts`, and the on-chain `Arena` contract).

Each data definition is a shallow embedding of the corresponding source
function; machine integers are modelled as `Nat` (with explicit `% 2^w`
truncation where the source fixes a width), JavaScript strings as lists of
characters or Unicode code points, and fallible operations as `Option` or
`Except`.
-/

namespace Relayer

/-! Section: The single FIFO submission queue (`enqueue`, src/relayer/src/index.ts lines 111-116)

```
let tail = Promise.resolve();
async function enqueue<T>(fn: () => Promise<T>): Promise<T> {
  const run = tail.then(fn, fn);
  tail = run.then(() => undefined, () => undefined);
  return run;
}
```

Timing model.  `enqueue` bodies run synchronously on the event loop
(no `await` before the tail swap), so the i-th `enqueue` call reads
`tail_{i-1}` and installs `tail_i` atomically; tasks are therefore indexed
by enqueue order.  `run_n = tail_{n-1}.then(fn_n, fn_n)` starts `fn_n`
exactly when `tail_{n-1}` settles (and never before task n was enqueued),
and `tail_{n-1} = run_{n-1}.then(const undefined, const undefined)` settles
exactly when task n-1 settles.  `enq n` is the instant task n is enqueued,
`dur n` the time from the start of task n to its settlement. -/
/-- Instant at which task `n` begins executing: task 0 starts at its enqueue
instant (the initial tail is already resolved); task n+1 starts when its
predecessor has settled, and never before its own enqueue instant. -/
def startAt (enq dur : Nat → Nat) : Nat → Nat
  | 0 => enq 0
  | n + 1 => max (enq (n + 1)) (startAt enq dur n + dur n)

/-- Instant at which task `n` settles (resolves or rejects). -/
def settleAt (enq dur : Nat → Nat) (n : Nat) : Nat :=
  startAt enq dur n + dur n

/-- Task `n` is executing at instant `t`. -/
def executingAt (enq dur : Nat → Nat) (n t : Nat) : Prop :=
  startAt enq dur n ≤ t ∧ t < settleAt enq dur n

/-! Section: Promise-outcome model of the same queue (for failure propagation)

A settled promise is either fulfilled or rejected; `pThen` is `.then` on a
settled promise whose two callbacks ignore their argument, which is how the
source uses it (`fn : () => Promise<T>` ignores the predecessor value, and
`() => undefined` ignores both value and reason). -/
/-- A settled promise outcome: fulfilled with a value or rejected with a reason. -/
inductive PResult (α : Type) where
  | ok : α → PResult α
  | err : String → PResult α
deriving DecidableEq

/-- Evaluation of `p.then(onOk, onErr)` for a settled promise `p`, with both callbacks
ignoring their argument (as in `tail.then(fn, fn)` and
`run.then(() => undefined, () => undefined)`). -/
def pThen {α β : Type} (p : PResult α) (onOk onErr : Unit → PResult β) : PResult β :=
  match p with
  | .ok _ => onOk ()
  | .err _ => onErr ()

/-! Section: JavaScript strings -/
/-- A JavaScript string, modelled as its list of characters. -/
abbrev JSString := List Char

/-- ASCII lowercasing of one character.  `String.prototype.toLowerCase` is
applied in the source only to hex addresses and error messages, which are
ASCII, where it coincides with ASCII lowercasing. -/
def asciiLower (c : Char) : Char :=
  if 65 ≤ c.toNat ∧ c.toNat ≤ 90 then Char.ofNat (c.toNat + 32) else c

/-- Model of `s.toLowerCase()`. -/
def jsToLower (s : JSString) : JSString := s.map asciiLower

/-! Section: Per-player move dedupe (`moveInFlight` / `enqueueMoveOnce`,
src/relayer/src/index.ts lines 142-159)

```
const moveInFlight = new Map<string, Promise<any>>();
async function enqueueMoveOnce(player: string, fn: () => Promise<any>) {
  const key = player.toLowerCase();
  const existing = moveInFlight.get(key);
  if (existing) return { deduped: true, promise: existing };
  const p = enqueue(async () => {
    try { return await fn(); } finally { moveInFlight.delete(key); }
  });
  moveInFlight.set(key, p);
  return { deduped: false, promise: p };
}
```

The `Map` is modelled as an association list in insertion order; promise
identities are modelled as consecutive `Nat` handles; `queued` records, in
order, the handles of the tasks actually handed to the global `enqueue`.
The body of `enqueueMoveOnce` runs without interleaving: `enqueue` defers
its callback to a microtask, so the `finally`-deletion can only run after
`moveInFlight.set(key, p)` has executed; a settlement is therefore a
separate later event. -/
/-- The relayer's dedupe state: the `moveInFlight` map (key, promise handle),
a counter producing fresh promise identities, and the handles handed to the
global submission queue, in order. -/
structure DedupeState where
  table : List (JSString × Nat)
  nextId : Nat
  queued : List Nat
deriving DecidableEq

/-- Lookup `moveInFlight.get(key)` on the association list. -/
def lookupKey (t : List (JSString × Nat)) (k : JSString) : Option Nat :=
  match t with
  | [] => none
  | e :: rest => if e.1 = k then some e.2 else lookupKey rest k

/-- One `enqueueMoveOnce(player, fn)` call.  Returns
`(deduped, promise handle)` and the successor state. -/
def enqueueMoveOnce (st : DedupeState) (player : JSString) :
    (Bool × Nat) × DedupeState :=
  let key := jsToLower player
  match lookupKey st.table key with
  | some h => ((true, h), st)
  | none =>
      ((false, st.nextId),
       { table := st.table ++ [(key, st.nextId)]
         nextId := st.nextId + 1
         queued := st.queued ++ [st.nextId] })

/-- The `finally { moveInFlight.delete(key) }` that runs when the task
enqueued for `key` settles (on success and on failure alike). -/
def settleMove (st : DedupeState) (key : JSString) : DedupeState :=
  { st with table := st.table.eraseP (fun e => e.1 == key) }

/-- Events acting on the dedupe state: a `/move` request for a player
reaching `enqueueMoveOnce`, or the settlement of the in-flight task for a
(lowercased) key. -/
inductive MoveEv where
  | request : JSString → MoveEv
  | settle : JSString → MoveEv
deriving DecidableEq

/-- One event step. -/
def stepMove (st : DedupeState) (ev : MoveEv) : DedupeState :=
  match ev with
  | .request p => (enqueueMoveOnce st p).2
  | .settle k => settleMove st k

/-- Initial state: empty map, no promise yet created, empty queue. -/
def initDedupe : DedupeState := ⟨[], 0, []⟩

/-- The dedupe state after a sequence of events from process start. -/
def runMoves (evs : List MoveEv) : DedupeState :=
  evs.foldl stepMove initDedupe

/-- The keys of the in-flight map are pairwise distinct. -/
def keysNodup (st : DedupeState) : Prop :=
  (st.table.map Prod.fst).Nodup

/-- The queue's only piece of state: the current tail promise. -/
structure QueueState where
  tail : PResult Unit

/-- Initial state: `let tail = Promise.resolve()`. -/
def initQueue : QueueState := ⟨.ok ()⟩

/-- One `enqueue(fn)` call: `const run = tail.then(fn, fn);
tail = run.then(() => undefined, () => undefined); return run`.
Returns the future handed back to the caller and the new queue state. -/
def enqueue {α : Type} (st : QueueState) (fn : Unit → PResult α) :
    PResult α × QueueState :=
  let run := pThen st.tail fn fn
  (run, ⟨pThen run (fun _ => .ok ()) (fun _ => .ok ())⟩)

end Relayer

namespace SolidityEnc

/-- Big-endian encoding of `n % 256^w` on exactly `w` bytes: the packed form
of a `w`-byte unsigned integer. -/
def beBytes : Nat → Nat → List Nat
  | 0, _ => []
  | w + 1, n => beBytes w (n / 256) ++ [n % 256]

/-- A `uint256` packs on 32 bytes. -/
def uint256 (n : Nat) : List Nat := beBytes 32 n

/-- An `address` packs on 20 bytes. -/
def address (n : Nat) : List Nat := beBytes 20 n

/-- A `uint8` packs on one byte. -/
def uint8 (n : Nat) : List Nat := beBytes 1 n

end SolidityEnc

namespace Relayer

/-- TS `enum ActionType { SET_NAME = 0, JOIN = 1, MOVE = 2 }` (index.ts 32-36). -/
def ActionType.SET_NAME : Nat := 0

def ActionType.JOIN : Nat := 1

def ActionType.MOVE : Nat := 2

/-- Function `commonDomain` (index.ts 38-42):
`keccak256(solidityPacked(["uint256", "address"], [chainId, arenaAddress]))`. -/
def commonDomain (keccak : List Nat → List Nat) (chainId arenaAddress : Nat) : List Nat :=
  keccak (SolidityEnc.uint256 chainId ++ SolidityEnc.address arenaAddress)

/-- Function `digestJoin` (index.ts 44-52): keccak over
`["bytes32", "uint8", "address", "uint256", "uint256"]`
packed as `[domain, JOIN, player, nonce, deadline]`. -/
def digestJoin (keccak : List Nat → List Nat)
    (chainId arenaAddress player nonce deadline : Nat) : List Nat :=
  keccak (commonDomain keccak chainId arenaAddress
    ++ SolidityEnc.uint8 ActionType.JOIN
    ++ SolidityEnc.address player
    ++ SolidityEnc.uint256 nonce
    ++ SolidityEnc.uint256 deadline)

/-- Function `digestMove` (index.ts 54-62): keccak over
`["bytes32", "uint8", "address", "uint8", "uint256", "uint256"]`
packed as `[domain, MOVE, player, dir, nonce, deadline]`. -/
def digestMove (keccak : List Nat → List Nat)
    (chainId arenaAddress player dir nonce deadline : Nat) : List Nat :=
  keccak (commonDomain keccak chainId arenaAddress
    ++ SolidityEnc.uint8 ActionType.MOVE
    ++ SolidityEnc.address player
    ++ SolidityEnc.uint8 dir
    ++ SolidityEnc.uint256 nonce
    ++ SolidityEnc.uint256 deadline)

/-- Function `digestSetName` (index.ts 64-79): keccak over
`["bytes32", "uint8", "address", "bytes12", "uint256", "uint256"]`
packed as `[domain, SET_NAME, player, nameBytes12, nonce, deadline]`;
the `bytes12` argument packs as its 12 raw bytes. -/
def digestSetName (keccak : List Nat → List Nat)
    (chainId arenaAddress player : Nat) (nameBytes12 : List Nat)
    (nonce deadline : Nat) : List Nat :=
  keccak (commonDomain keccak chainId arenaAddress
    ++ SolidityEnc.uint8 ActionType.SET_NAME
    ++ SolidityEnc.address player
    ++ nameBytes12
    ++ SolidityEnc.uint256 nonce
    ++ SolidityEnc.uint256 deadline)

end Relayer

namespace ArenaContract

/-- Solidity `enum ActionType { SET_NAME, JOIN, MOVE }` (Arena contract).
An enum value packs in `abi.encodePacked` as a `uint8` holding its index. -/
inductive ActionType where
  | SET_NAME
  | JOIN
  | MOVE
deriving DecidableEq

/-- The `uint8` index a Solidity enum member packs as. -/
def ActionType.toUint8 : ActionType → Nat
  | .SET_NAME => 0
  | .JOIN => 1
  | .MOVE => 2

/-- Solidity `Arena._commonDomain()`:
`keccak256(abi.encodePacked(block.chainid, address(this)))`, with
`block.chainid : uint256` and `address(this)` the arena address. -/
def commonDomain (keccak : List Nat → List Nat) (chainid addrThis : Nat) : List Nat :=
  keccak (SolidityEnc.uint256 chainid ++ SolidityEnc.address addrThis)

/-- Solidity `Arena._digestJoin(player, nonce, deadline)`:
`keccak256(abi.encodePacked(_commonDomain(), ActionType.JOIN, player, nonce, deadline))`. -/
def digestJoin (keccak : List Nat → List Nat)
    (chainid addrThis player nonce deadline : Nat) : List Nat :=
  keccak (commonDomain keccak chainid addrThis
    ++ SolidityEnc.uint8 ActionType.JOIN.toUint8
    ++ SolidityEnc.address player
    ++ SolidityEnc.uint256 nonce
    ++ SolidityEnc.uint256 deadline)

/-- Solidity `Arena._digestMove(player, dir, nonce, deadline)`:
`keccak256(abi.encodePacked(_commonDomain(), ActionType.MOVE, player, dir, nonce, deadline))`
with `dir : uint8`. -/
def digestMove (keccak : List Nat → List Nat)
    (chainid addrThis player dir nonce deadline : Nat) : List Nat :=
  keccak (commonDomain keccak chainid addrThis
    ++ SolidityEnc.uint8 ActionType.MOVE.toUint8
    ++ SolidityEnc.address player
    ++ SolidityEnc.uint8 dir
    ++ SolidityEnc.uint256 nonce
    ++ SolidityEnc.uint256 deadline)

/-- Solidity `Arena._digestSetName(player, newName, nonce, deadline)`:
`keccak256(abi.encodePacked(_commonDomain(), ActionType.SET_NAME, player, newName, nonce, deadline))`
with `newName : bytes12` packing as its 12 raw bytes. -/
def digestSetName (keccak : List Nat → List Nat)
    (chainid addrThis player : Nat) (newName : List Nat)
    (nonce deadline : Nat) : List Nat :=
  keccak (commonDomain keccak chainid addrThis
    ++ SolidityEnc.uint8 ActionType.SET_NAME.toUint8
    ++ SolidityEnc.address player
    ++ newName
    ++ SolidityEnc.uint256 nonce
    ++ SolidityEnc.uint256 deadline)

end ArenaContract

namespace Relayer

/-! Section: Burner-signature verification (`verifyBurnerSignature`, index.ts 81-84)

```
function verifyBurnerSignature(opts: { player: string; digest: string; sig: string }): boolean {
  const recovered = ethers.verifyMessage(ethers.getBytes(opts.digest), opts.sig);
  return recovered.toLowerCase() === opts.player.toLowerCase();
}
```

`ethers.verifyMessage` recovers the signer over the EIP-191
personal-message encoding of the digest; the cryptographic recovery is
external to the repository and is passed in as a function parameter.  It
throws on a malformed signature encoding, which `Except.error` models; the
source has no try/catch, so an error propagates to the caller. -/
/-- Function `verifyBurnerSignature`, parameterized by the external recovery
function (`ethers.verifyMessage` applied to the digest bytes). -/
def verifyBurnerSignature
    (recoverMessage : JSString → JSString → Except JSString JSString)
    (player digest sig : JSString) : Except JSString Bool :=
  match recoverMessage digest sig with
  | .error e => .error e
  | .ok recovered => .ok (jsToLower recovered == jsToLower player)

/-- Two strings are equal up to ASCII letter case. -/
def EqCaseInsensitive (a b : JSString) : Prop :=
  List.Forall₂ (fun c d => asciiLower c = asciiLower d) a b

/-- Model of `ethers` signature handling: a well-formed signature is `0x`
followed by 130 hex digits (65 bytes) or 128 hex digits (64 bytes,
EIP-2098 compact form); on anything else `ethers.verifyMessage` throws.
On a well-formed signature it returns the cryptographically recovered
signer, supplied here as the parameter `recover`. -/
def isHexDigit (c : Char) : Bool :=
  (48 ≤ c.toNat && c.toNat ≤ 57) || (97 ≤ c.toNat && c.toNat ≤ 102)
    || (65 ≤ c.toNat && c.toNat ≤ 70)

/-- Signature well-formedness as checked by `ethers.Signature.from`. -/
def wellFormedSigHex (sig : JSString) : Bool :=
  match sig with
  | '0' :: 'x' :: rest => (rest.length == 130 || rest.length == 128) && rest.all isHexDigit
  | _ => false

/-- The reason `ethers` throws for a malformed signature encoding. -/
def invalidSignatureError : JSString := "invalid signature".data

/-- Model of `ethers.verifyMessage` as used by the relayer: throws on malformed
signature encodings, otherwise defers to the external recovery. -/
def ethersVerifyMessageModel (recover : JSString → JSString → JSString)
    (digest sig : JSString) : Except JSString JSString :=
  if wellFormedSigHex sig then .ok (recover digest sig) else .error invalidSignatureError

/-! Section: HTTP status mapping of submission failures (index.ts catch blocks)

The `/move` handler's catch (index.ts 292-303) lowercases the normalized
error message and answers 409 when it contains `"higher priority"`,
`"nonce too low"` or `"replacement transaction underpriced"`, else 400.
The `/join` (219-222), `/set-name` (251-254) and `/kick` (313-316) catch
blocks answer 400 unconditionally.  No handler retries. -/
/-- Model of `s.includes(pat)`: `pat` occurs contiguously in `s`. -/
def strIncludes (s pat : JSString) : Bool := decide (pat <:+: s)

/-- The literal `"higher priority"`. -/
def higherPriorityPattern : JSString := "higher priority".data

/-- The literal `"nonce too low"`. -/
def nonceTooLowPattern : JSString := "nonce too low".data

/-- The literal `"replacement transaction underpriced"`. -/
def replacementUnderpricedPattern : JSString := "replacement transaction underpriced".data

/-- HTTP status the `/move` catch block answers for a normalized error
message. -/
def moveCatchStatus (msg : JSString) : Nat :=
  let m := jsToLower msg
  if strIncludes m higherPriorityPattern || strIncludes m nonceTooLowPattern
      || strIncludes m replacementUnderpricedPattern
  then 409 else 400

/-- HTTP status the `/join` catch block answers: always 400. -/
def joinCatchStatus (_msg : JSString) : Nat := 400

/-- HTTP status the `/set-name` catch block answers: always 400. -/
def setNameCatchStatus (_msg : JSString) : Nat := 400

/-- HTTP status the `/kick` catch block answers: always 400. -/
def kickCatchStatus (_msg : JSString) : Nat := 400

/-- An error message reporting a stale/duplicate nonce or a
priority/replacement conflict from the external system. -/
def OrderingConflictMsg (msg : JSString) : Prop :=
  higherPriorityPattern <:+: jsToLower msg ∨
  nonceTooLowPattern <:+: jsToLower msg ∨
  replacementUnderpricedPattern <:+: jsToLower msg

/-! Section: Per-IP rate limiting (`ipHits` / `rateLimit`, index.ts 121-138)

```
const ipHits = new Map<string, { count: number; resetAt: number }>();
function rateLimit(req, res, next) {
  const ip = ...;
  const now = Date.now();
  const windowMs = 2000; // 2s
  const max = 25; // 25 requests per 2s per IP
  const entry = ipHits.get(ip);
  if (!entry || now > entry.resetAt) {
    ipHits.set(ip, { count: 1, resetAt: now + windowMs });
    return next();
  }
  entry.count += 1;
  if (entry.count > max) {
    return res.status(429).json({ ok: false, error: "Rate limited" });
  }
  next();
}
```

One origin key is modelled in isolation (the map is keyed per IP and the
entries are independent); `true` means the request is passed on (`next()`),
`false` means it is rejected with 429. -/
/-- Constant `windowMs = 2000`. -/
def windowMs : Nat := 2000

/-- Constant `max = 25` (requests per window per origin). -/
def maxHits : Nat := 25

/-- The `ipHits` entry for one origin key. -/
structure IpEntry where
  count : Nat
  resetAt : Nat
deriving DecidableEq

/-- One `rateLimit` middleware call for one origin key at time `now`:
returns whether the request is allowed and the entry left in `ipHits`. -/
def rateLimit (entry : Option IpEntry) (now : Nat) : Bool × IpEntry :=
  match entry with
  | none => (true, ⟨1, now + windowMs⟩)
  | some e =>
      if now > e.resetAt then (true, ⟨1, now + windowMs⟩)
      else
        let e2 : IpEntry := ⟨e.count + 1, e.resetAt⟩
        (decide (¬ e2.count > maxHits), e2)

/-- Outcomes of a sequence of requests from one origin at the given times,
starting from a given entry state. -/
def rateLimitRunFrom (entry : Option IpEntry) : List Nat → List Bool
  | [] => []
  | t :: ts =>
      let r := rateLimit entry t
      r.1 :: rateLimitRunFrom (some r.2) ts

/-- Outcomes of a sequence of requests from one origin with no prior entry. -/
def rateLimitRun (times : List Nat) : List Bool :=
  rateLimitRunFrom none times

end Relayer

namespace ArenaLib

/-! Section: Name codec (`toBytes12FromName` / `bytes12ToString`, lib/arena.ts 91-105)

```
export function toBytes12FromName(name: string): string {
  const trimmed = (name ?? "").trim().slice(0, 12);
  const bytes = ethers.toUtf8Bytes(trimmed);
  const sliced = bytes.length > 12 ? bytes.slice(0, 12) : bytes;
  const padded = ethers.zeroPadBytes(sliced, 12);
  return ethers.hexlify(padded);
}
export function bytes12ToString(b12: string): string {
  const raw = ethers.getBytes(b12);
  let end = raw.length;
  while (end > 0 && raw[end - 1] === 0) end--;
  return ethers.toUtf8String(raw.slice(0, end));
}
```

Names are modelled as lists of Unicode code points (`.trim()` and
`.slice(0, 12)` act on UTF-16 units, which coincide with code points on
BMP strings), byte strings as lists of `Nat` values < 256.
`ethers.zeroPadBytes` pads on the right.  `ethers.toUtf8String` throws on
bytes that are not valid UTF-8, which `Option.none` models. -/
/-- The code points `String.prototype.trim` removes (ECMAScript WhiteSpace
and LineTerminator). -/
def jsWhitespace (c : Nat) : Bool :=
  (9 ≤ c && c ≤ 13) || c == 32 || c == 160 || c == 0x1680
    || (0x2000 ≤ c && c ≤ 0x200A) || c == 0x2028 || c == 0x2029
    || c == 0x202F || c == 0x205F || c == 0x3000 || c == 0xFEFF

/-- Model of `s.trim()`: strip leading and trailing whitespace. -/
def jsTrim (s : List Nat) : List Nat :=
  ((s.dropWhile jsWhitespace).reverse.dropWhile jsWhitespace).reverse

/-- UTF-8 encoding of one code point (as `ethers.toUtf8Bytes` emits it). -/
def utf8EncodeChar (c : Nat) : List Nat :=
  if c < 0x80 then [c]
  else if c < 0x800 then [0xC0 + c / 64, 0x80 + c % 64]
  else if c < 0x10000 then [0xE0 + c / 4096, 0x80 + (c / 64) % 64, 0x80 + c % 64]
  else [0xF0 + c / 262144, 0x80 + (c / 4096) % 64, 0x80 + (c / 64) % 64, 0x80 + c % 64]

/-- Model of `ethers.toUtf8Bytes`: UTF-8 encoding of a string. -/
def utf8Encode (s : List Nat) : List Nat := s.flatMap utf8EncodeChar

/-- Is `b` a UTF-8 continuation byte. -/
def isCont (b : Nat) : Bool := 128 ≤ b && b < 192

/-- Decode the first code point of a UTF-8 byte sequence whose first byte
is `b` and remaining bytes are `rest`: the code point and the bytes after
it, or `none` when the sequence is malformed. -/
def utf8DecodeStep (b : Nat) (rest : List Nat) : Option (Nat × List Nat) :=
  if b < 128 then some (b, rest)
  else if b < 192 then none
  else if b < 224 then
    match rest with
    | b1 :: rest2 =>
        if isCont b1 then some ((b - 192) * 64 + (b1 - 128), rest2) else none
    | [] => none
  else if b < 240 then
    match rest with
    | b1 :: b2 :: rest3 =>
        if isCont b1 && isCont b2 then
          some ((b - 224) * 4096 + (b1 - 128) * 64 + (b2 - 128), rest3)
        else none
    | _ => none
  else
    match rest with
    | b1 :: b2 :: b3 :: rest4 =>
        if isCont b1 && isCont b2 && isCont b3 then
          some ((b - 240) * 262144 + (b1 - 128) * 4096
            + (b2 - 128) * 64 + (b3 - 128), rest4)
        else none
    | _ => none

set_option maxRecDepth 4096 in
/-- Model of `ethers.toUtf8String`: UTF-8 decoding, `none` when
the bytes are not a valid UTF-8 sequence (the library throws there). -/
def utf8Decode (l : List Nat) : Option (List Nat) :=
  match l with
  | [] => some []
  | b :: rest =>
      match hs : utf8DecodeStep b rest with
      | none => none
      | some (c, rem) =>
          have hlt : rem.length < (b :: rest).length := by
            have hle : rem.length ≤ rest.length := by
              simp only [utf8DecodeStep] at hs
              repeat' split at hs
              all_goals cases hs
              all_goals try simp only [List.length_cons]
              all_goals omega
            simp only [List.length_cons]
            omega
          (utf8Decode rem).map (fun t => c :: t)
termination_by l.length

/-- Function `toBytes12FromName`: trim, keep at most 12 characters, UTF-8 encode,
keep at most 12 bytes, zero-pad on the right to exactly 12 bytes. -/
def toBytes12FromName (name : List Nat) : List Nat :=
  let trimmed := (jsTrim name).take 12
  let bytes := utf8Encode trimmed
  let sliced := if bytes.length > 12 then bytes.take 12 else bytes
  sliced ++ List.replicate (12 - sliced.length) 0

/-- The while loop of `bytes12ToString`: drop trailing zero bytes. -/
def stripTrailingZeros (raw : List Nat) : List Nat :=
  (raw.reverse.dropWhile (fun b => b == 0)).reverse

/-- Function `bytes12ToString`: strip trailing zero bytes, then UTF-8 decode. -/
def bytes12ToString (b12 : List Nat) : Option (List Nat) :=
  utf8Decode (stripTrailingZeros b12)

end ArenaLib

namespace Relayer

theorem settleAt_le_startAt_succ (enq dur : Nat → Nat) (n : Nat) :
    settleAt enq dur n ≤ startAt enq dur (n + 1) := by
  simp only [settleAt, startAt]
  exact le_max_right _ _

theorem startAt_le_settleAt (enq dur : Nat → Nat) (n : Nat) :
    startAt enq dur n ≤ settleAt enq dur n :=
  Nat.le_add_right _ _

theorem settleAt_le_startAt_of_lt (enq dur : Nat → Nat) {i j : Nat} (hij : i < j) :
    settleAt enq dur i ≤ startAt enq dur j := by
  induction j with
  | zero => exact absurd hij (Nat.not_lt_zero i)
  | succ j ih =>
      rcases Nat.lt_succ_iff_lt_or_eq.mp hij with h | h
      · exact le_trans (ih h)
          (le_trans (startAt_le_settleAt enq dur j) (settleAt_le_startAt_succ enq dur j))
      · subst h
        exact settleAt_le_startAt_succ enq dur i

theorem startAt_strictMono_of_lt (enq dur : Nat → Nat) (hdur : ∀ n, 0 < dur n)
    {i j : Nat} (hij : i < j) : startAt enq dur i < startAt enq dur j :=
  lt_of_lt_of_le
    (Nat.lt_add_of_pos_right (hdur i))
    (settleAt_le_startAt_of_lt enq dur hij)

theorem enqueueMoveOnce_of_some (st : DedupeState) (p : JSString) (h : Nat)
    (hl : lookupKey st.table (jsToLower p) = some h) :
    enqueueMoveOnce st p = ((true, h), st) := by
  simp [enqueueMoveOnce, hl]

theorem enqueueMoveOnce_of_none (st : DedupeState) (p : JSString)
    (hl : lookupKey st.table (jsToLower p) = none) :
    enqueueMoveOnce st p =
      ((false, st.nextId),
       { table := st.table ++ [(jsToLower p, st.nextId)]
         nextId := st.nextId + 1
         queued := st.queued ++ [st.nextId] }) := by
  simp [enqueueMoveOnce, hl]

theorem lookupKey_eq_none_iff (t : List (JSString × Nat)) (k : JSString) :
    lookupKey t k = none ↔ k ∉ t.map Prod.fst := by
  induction t with
  | nil => simp [lookupKey]
  | cons e rest ih =>
      simp only [lookupKey, List.map_cons, List.mem_cons]
      by_cases h : e.1 = k
      · simp [h]
      · simp only [if_neg h, ih]
        constructor
        · intro hk hor
          rcases hor with h1 | h2
          · exact h h1.symm
          · exact hk h2
        · intro hk h2
          exact hk (Or.inr h2)

theorem lookupKey_append_single (t : List (JSString × Nat)) (k : JSString) (v : Nat)
    (h : lookupKey t k = none) :
    lookupKey (t ++ [(k, v)]) k = some v := by
  induction t with
  | nil => simp [lookupKey]
  | cons e rest ih =>
      by_cases he : e.1 = k
      · simp [lookupKey, he] at h
      · simp only [lookupKey, he] at h
        simpa [lookupKey, he] using ih h

theorem lookupKey_eraseP_self (t : List (JSString × Nat)) (k : JSString)
    (hnd : (t.map Prod.fst).Nodup) :
    lookupKey (t.eraseP (fun e => e.1 == k)) k = none := by
  induction t with
  | nil => simp [lookupKey, List.eraseP]
  | cons e rest ih =>
      rw [List.map_cons] at hnd
      rcases List.nodup_cons.mp hnd with ⟨hhead, htail⟩
      rw [List.eraseP_cons]
      by_cases he : e.1 = k
      · rw [show (e.1 == k) = true from beq_iff_eq.mpr he]
        simp only [cond_true]
        exact (lookupKey_eq_none_iff rest k).mpr (he ▸ hhead)
      · rw [show (e.1 == k) = false from beq_eq_false_iff_ne.mpr he]
        simp only [cond_false]
        simpa [lookupKey, he] using ih htail

theorem stepMove_preserves_keysNodup (st : DedupeState) (ev : MoveEv)
    (h : keysNodup st) : keysNodup (stepMove st ev) := by
  cases ev with
  | request p =>
      show keysNodup (enqueueMoveOnce st p).2
      cases hl : lookupKey st.table (jsToLower p) with
      | some v => rw [enqueueMoveOnce_of_some st p v hl]; exact h
      | none =>
          rw [enqueueMoveOnce_of_none st p hl]
          show (List.map Prod.fst (st.table ++ [(jsToLower p, st.nextId)])).Nodup
          rw [List.map_append, List.nodup_append]
          refine ⟨h, List.nodup_singleton _, ?_⟩
          intro a ha hb
          have hax : a = jsToLower p := by simpa using hb
          subst hax
          exact (lookupKey_eq_none_iff st.table (jsToLower p)).mp hl ha
  | settle k =>
      show keysNodup (settleMove st k)
      exact ((st.table.eraseP_sublist).map Prod.fst).nodup h

theorem count_le_one_of_keysNodup {l : List JSString} (h : l.Nodup) (k : JSString) :
    l.count k ≤ 1 := by
  induction l with
  | nil => simp
  | cons a t ih =>
      rcases List.nodup_cons.mp h with ⟨ha, ht⟩
      rw [List.count_cons]
      by_cases hak : a = k
      · subst hak
        have hz : t.count a = 0 := List.count_eq_zero.mpr ha
        simp [hz]
      · have : (a == k) = false := beq_eq_false_iff_ne.mpr hak
        simp [this]
        exact ih ht

theorem runMoves_keysNodup (evs : List MoveEv) : keysNodup (runMoves evs) := by
  suffices hgen : ∀ st, keysNodup st → keysNodup (evs.foldl stepMove st) from
    hgen initDedupe (by simp [keysNodup, initDedupe])
  induction evs with
  | nil => exact fun st h => h
  | cons ev rest ih =>
      exact fun st h => ih (stepMove st ev) (stepMove_preserves_keysNodup st ev h)

theorem jsToLower_eq_iff (a b : JSString) :
    jsToLower a = jsToLower b ↔ EqCaseInsensitive a b := by
  unfold jsToLower EqCaseInsensitive
  induction a generalizing b with
  | nil =>
      cases b with
      | nil => simp
      | cons d bs => simp
  | cons c as ih =>
      cases b with
      | nil => simp
      | cons d bs =>
          simp only [List.map_cons, List.cons.injEq, List.forall₂_cons]
          exact and_congr Iff.rfl (ih bs)

theorem strIncludes_iff (s pat : JSString) : strIncludes s pat = true ↔ pat <:+: s := by
  simp [strIncludes]

theorem rateLimitRunFrom_in_window (r : Nat) :
    ∀ (ts : List Nat) (c : Nat), (∀ t ∈ ts, ¬ t > r) →
      rateLimitRunFrom (some ⟨c, r⟩) ts
        = (List.range ts.length).map (fun i => decide (c + i + 1 ≤ maxHits)) := by
  intro ts
  induction ts with
  | nil => intro c _; rfl
  | cons t rest ih =>
      intro c hwin
      have ht : ¬ t > r := hwin t (List.mem_cons_self t rest)
      have hrest : ∀ u ∈ rest, ¬ u > r := fun u hu => hwin u (List.mem_cons_of_mem t hu)
      show (rateLimit (some ⟨c, r⟩) t).1
          :: rateLimitRunFrom (some (rateLimit (some ⟨c, r⟩) t).2) rest
        = (List.range (rest.length + 1)).map (fun i => decide (c + i + 1 ≤ maxHits))
      have hstep : rateLimit (some ⟨c, r⟩) t = (decide (¬ c + 1 > maxHits), ⟨c + 1, r⟩) := by
        simp [rateLimit, ht]
      rw [hstep]
      rw [List.range_succ_eq_map, List.map_cons, List.map_map]
      have hrec := ih (c + 1) hrest
      rw [hrec]
      have h1 : (decide (¬ c + 1 > maxHits) : Bool) = decide (c + 0 + 1 ≤ maxHits) := by
        rw [decide_eq_decide]
        omega
      have h2 : List.map (fun i => decide (c + 1 + i + 1 ≤ maxHits)) (List.range rest.length)
          = List.map ((fun i => decide (c + i + 1 ≤ maxHits)) ∘ Nat.succ)
              (List.range rest.length) := by
        apply List.map_congr_left
        intro i _
        simp only [Function.comp_apply]
        rw [decide_eq_decide]
        omega
      show (decide (¬ c + 1 > maxHits) : Bool)
          :: List.map (fun i => decide (c + 1 + i + 1 ≤ maxHits)) (List.range rest.length)
        = decide (c + 0 + 1 ≤ maxHits)
          :: List.map ((fun i => decide (c + i + 1 ≤ maxHits)) ∘ Nat.succ)
              (List.range rest.length)
      rw [h1, h2]

end Relayer

namespace ArenaLib

theorem utf8EncodeChar_length_pos (c : Nat) : 0 < (utf8EncodeChar c).length := by
  unfold utf8EncodeChar
  by_cases h1 : c < 0x80
  · simp [h1]
  · by_cases h2 : c < 0x800
    · simp [h1, h2]
    · by_cases h3 : c < 0x10000
      · simp [h1, h2, h3]
      · simp [h1, h2, h3]

theorem length_le_utf8Encode_length (s : List Nat) :
    s.length ≤ (utf8Encode s).length := by
  induction s with
  | nil => simp [utf8Encode]
  | cons c rest ih =>
      show (c :: rest).length ≤ (utf8EncodeChar c ++ utf8Encode rest).length
      rw [List.length_append, List.length_cons]
      have := utf8EncodeChar_length_pos c
      omega

theorem utf8Decode_cons_some (b : Nat) (rest : List Nat) (c : Nat) (rem : List Nat)
    (h : utf8DecodeStep b rest = some (c, rem)) :
    utf8Decode (b :: rest) = (utf8Decode rem).map (fun t => c :: t) := by
  conv_lhs => unfold utf8Decode
  split
  · rename_i heq
    rw [h] at heq
    cases heq
  · rename_i c2 rem2 heq
    rw [h] at heq
    cases heq
    rfl

theorem utf8DecodeStep_encodeChar (c : Nat) (hc : c < 1114112) (rest : List Nat) :
    utf8DecodeStep (utf8EncodeChar c).head! ((utf8EncodeChar c).tail ++ rest)
      = some (c, rest) := by
  by_cases h1 : c < 0x80
  · simp only [utf8EncodeChar, if_pos h1, List.head!, List.tail, List.nil_append]
    have e1 : c < 128 := h1
    simp [utf8DecodeStep, e1]
  · by_cases h2 : c < 0x800
    · have e1 : ¬ (192 + c / 64 < 128) := by omega
      have e2 : ¬ (192 + c / 64 < 192) := by omega
      have e3 : 192 + c / 64 < 224 := by omega
      have e4 : isCont (128 + c % 64) = true := by
        simp only [isCont, Bool.and_eq_true, decide_eq_true_eq]
        omega
      simp only [utf8EncodeChar, if_neg h1, if_pos h2, List.head!, List.tail,
        List.cons_append, List.nil_append]
      simp [utf8DecodeStep, e1, e2, e3, e4]
      omega
    · by_cases h3 : c < 0x10000
      · have e1 : ¬ (224 + c / 4096 < 128) := by omega
        have e2 : ¬ (224 + c / 4096 < 192) := by omega
        have e3 : ¬ (224 + c / 4096 < 224) := by omega
        have e4 : 224 + c / 4096 < 240 := by omega
        have e5 : isCont (128 + c / 64 % 64) = true := by
          simp only [isCont, Bool.and_eq_true, decide_eq_true_eq]
          omega
        have e6 : isCont (128 + c % 64) = true := by
          simp only [isCont, Bool.and_eq_true, decide_eq_true_eq]
          omega
        simp only [utf8EncodeChar, if_neg h1, if_neg h2, if_pos h3, List.head!, List.tail,
          List.cons_append, List.nil_append]
        simp [utf8DecodeStep, e1, e2, e3, e4, e5, e6]
        omega
      · have e1 : ¬ (240 + c / 262144 < 128) := by omega
        have e2 : ¬ (240 + c / 262144 < 192) := by omega
        have e3 : ¬ (240 + c / 262144 < 224) := by omega
        have e4 : ¬ (240 + c / 262144 < 240) := by omega
        have e5 : isCont (128 + c / 4096 % 64) = true := by
          simp only [isCont, Bool.and_eq_true, decide_eq_true_eq]
          omega
        have e6 : isCont (128 + c / 64 % 64) = true := by
          simp only [isCont, Bool.and_eq_true, decide_eq_true_eq]
          omega
        have e7 : isCont (128 + c % 64) = true := by
          simp only [isCont, Bool.and_eq_true, decide_eq_true_eq]
          omega
        simp only [utf8EncodeChar, if_neg h1, if_neg h2, if_neg h3, List.head!, List.tail,
          List.cons_append, List.nil_append]
        simp [utf8DecodeStep, e1, e2, e3, e4, e5, e6, e7]
        omega

theorem utf8EncodeChar_head_tail (c : Nat) :
    utf8EncodeChar c = (utf8EncodeChar c).head! :: (utf8EncodeChar c).tail := by
  unfold utf8EncodeChar
  by_cases h1 : c < 0x80
  · simp [h1, List.head!]
  · by_cases h2 : c < 0x800
    · simp [h1, h2, List.head!]
    · by_cases h3 : c < 0x10000
      · simp [h1, h2, h3, List.head!]
      · simp [h1, h2, h3, List.head!]

theorem utf8Decode_encodeChar_append (c : Nat) (hc : c < 1114112) (rest : List Nat) :
    utf8Decode (utf8EncodeChar c ++ rest) = (utf8Decode rest).map (fun t => c :: t) := by
  have hsplit : utf8EncodeChar c ++ rest
      = (utf8EncodeChar c).head! :: ((utf8EncodeChar c).tail ++ rest) := by
    conv_lhs => rw [utf8EncodeChar_head_tail c]
    exact List.cons_append _ _ _
  rw [hsplit]
  exact utf8Decode_cons_some _ _ c rest (utf8DecodeStep_encodeChar c hc rest)

theorem utf8Decode_nil : utf8Decode [] = some [] := by
  unfold utf8Decode
  rfl

theorem utf8Decode_utf8Encode (s : List Nat) (h : ∀ c ∈ s, c < 1114112) :
    utf8Decode (utf8Encode s) = some s := by
  induction s with
  | nil =>
      show utf8Decode (List.flatMap [] utf8EncodeChar) = some []
      rw [List.flatMap_nil]
      exact utf8Decode_nil
  | cons c rest ih =>
      show utf8Decode (utf8EncodeChar c ++ utf8Encode rest) = some (c :: rest)
      rw [utf8Decode_encodeChar_append c (h c (List.mem_cons_self c rest)) (utf8Encode rest)]
      rw [ih (fun d hd => h d (List.mem_cons_of_mem c hd))]
      rfl

theorem utf8EncodeChar_ascii (c : Nat) (hc : c < 128) : utf8EncodeChar c = [c] := by
  unfold utf8EncodeChar
  rw [if_pos hc]

theorem utf8Encode_ascii (l : List Nat) (h : ∀ c ∈ l, c < 128) : utf8Encode l = l := by
  induction l with
  | nil => rfl
  | cons c rest ih =>
      show utf8EncodeChar c ++ utf8Encode rest = c :: rest
      rw [utf8EncodeChar_ascii c (h c (List.mem_cons_self c rest)),
        ih (fun d hd => h d (List.mem_cons_of_mem c hd))]
      rfl

theorem utf8Encode_ne_nil (c : Nat) (rest : List Nat) :
    utf8Encode (c :: rest) ≠ [] := by
  show utf8EncodeChar c ++ utf8Encode rest ≠ []
  intro h
  have := utf8EncodeChar_length_pos c
  have h2 := congrArg List.length h
  rw [List.length_append] at h2
  simp only [List.length_nil] at h2
  omega

theorem utf8EncodeChar_getLast?_ne_zero (c : Nat) (hc : c ≠ 0) :
    (utf8EncodeChar c).getLast? ≠ some 0 := by
  unfold utf8EncodeChar
  by_cases h1 : c < 0x80
  · rw [if_pos h1]
    simp [List.getLast?]
    omega
  · by_cases h2 : c < 0x800
    · rw [if_neg h1, if_pos h2]
      simp [List.getLast?, List.getLastD]
    · by_cases h3 : c < 0x10000
      · rw [if_neg h1, if_neg h2, if_pos h3]
        simp [List.getLast?, List.getLastD]
      · rw [if_neg h1, if_neg h2, if_neg h3]
        simp [List.getLast?, List.getLastD]

theorem utf8Encode_getLast?_ne_zero (s : List Nat) (h : s.getLast? ≠ some 0) :
    (utf8Encode s).getLast? ≠ some 0 := by
  induction s with
  | nil => simp [utf8Encode, List.getLast?]
  | cons c rest ih =>
      show (utf8EncodeChar c ++ utf8Encode rest).getLast? ≠ some 0
      cases rest with
      | nil =>
          have hc : c ≠ 0 := by
            intro hc0
            subst hc0
            exact h (by simp [List.getLast?])
          show (utf8EncodeChar c ++ utf8Encode []).getLast? ≠ some 0
          rw [show utf8Encode [] = [] from rfl, List.append_nil]
          exact utf8EncodeChar_getLast?_ne_zero c hc
      | cons d t =>
          rw [List.getLast?_append_of_ne_nil _ (utf8Encode_ne_nil d t)]
          apply ih
          rw [← List.getLast?_cons_cons (a := c)]
          exact h

theorem dropWhile_zero_replicate_append (k : Nat) (l : List Nat) :
    (List.replicate k 0 ++ l).dropWhile (fun b => b == 0)
      = l.dropWhile (fun b => b == 0) := by
  induction k with
  | zero => simp
  | succ k ih =>
      rw [List.replicate_succ, List.cons_append, List.dropWhile_cons]
      simp only [show ((0 : Nat) == 0) = true from rfl, if_true]
      exact ih

theorem stripTrailingZeros_append_replicate (bytes : List Nat) (k : Nat)
    (h : bytes.getLast? ≠ some 0) :
    stripTrailingZeros (bytes ++ List.replicate k 0) = bytes := by
  unfold stripTrailingZeros
  rw [List.reverse_append, List.reverse_replicate, dropWhile_zero_replicate_append]
  cases hrb : bytes.reverse with
  | nil =>
      rw [List.reverse_eq_nil_iff.mp hrb]
      rfl
  | cons b t =>
      have hb : bytes.getLast? = some b := by
        rw [← List.head?_reverse, hrb]
        rfl
      have hbz : (b == 0) = false := by
        rcases eq_or_ne b 0 with rfl | hne
        · exact absurd hb h
        · exact beq_eq_false_iff_ne.mpr hne
      rw [List.dropWhile_cons, hbz]
      simp only [Bool.false_eq_true, if_false]
      rw [← hrb, List.reverse_reverse]

end ArenaLib

/-- C1: tasks enqueued in order T1, T2, ... each begin executing only after
every previously enqueued task has settled, so at most one task is ever
executing at an instant, and the external submitter observes the calls
(which happen at task start) in exactly enqueue order. -/
theorem C1_queue_serializes_in_fifo_order (enq dur : Nat → Nat)
    (hdur : ∀ n, 0 < dur n) :
    (∀ i j, i < j → Relayer.settleAt enq dur i ≤ Relayer.startAt enq dur j) ∧
    (∀ i j, i < j → Relayer.startAt enq dur i < Relayer.startAt enq dur j) ∧
    (∀ i j t, Relayer.executingAt enq dur i t → Relayer.executingAt enq dur j t → i = j) := by
  refine ⟨fun i j hij => Relayer.settleAt_le_startAt_of_lt enq dur hij,
          fun i j hij => Relayer.startAt_strictMono_of_lt enq dur hdur hij,
          fun i j t hi hj => ?_⟩
  rcases Nat.lt_trichotomy i j with h | h | h
  · exact absurd hj.1 (Nat.not_le_of_lt
      (lt_of_lt_of_le hi.2 (Relayer.settleAt_le_startAt_of_lt enq dur h)))
  · exact h
  · exact absurd hi.1 (Nat.not_le_of_lt
      (lt_of_lt_of_le hj.2 (Relayer.settleAt_le_startAt_of_lt enq dur h)))

theorem C1_queue_serializes_in_fifo_order_witness :
    Relayer.settleAt (fun n => n) (fun _ => 1) 0 ≤ Relayer.startAt (fun n => n) (fun _ => 1) 1 :=
  (C1_queue_serializes_in_fifo_order (fun n => n) (fun _ => 1) (fun _ => Nat.one_pos)).1
    0 1 Nat.one_pos

/-- C6: for tasks enqueued in order T1 then T2, T2 executes and its result
is returned regardless of T1's outcome (both `.then` callbacks are the task
itself, so execution is conditioned only on the predecessor's settlement,
not its success); each `enqueue` returns a future carrying that task's own
outcome; and the replacement tail always settles fulfilled, so a failure
never breaks the chain. -/
theorem C6_failing_task_does_not_block_queue {α β : Type} (st : Relayer.QueueState)
    (fn1 : Unit → Relayer.PResult α) (fn2 : Unit → Relayer.PResult β) :
    (Relayer.enqueue st fn1).1 = fn1 () ∧
    (Relayer.enqueue (Relayer.enqueue st fn1).2 fn2).1 = fn2 () ∧
    (Relayer.enqueue st fn1).2.tail = .ok () := by
  refine ⟨?_, ?_, ?_⟩
  · show Relayer.pThen st.tail fn1 fn1 = fn1 ()
    cases st.tail with
    | ok a => rfl
    | err e => rfl
  · show Relayer.pThen (Relayer.enqueue st fn1).2.tail fn2 fn2 = fn2 ()
    cases h : (Relayer.enqueue st fn1).2.tail with
    | ok a => rfl
    | err e => rfl
  · obtain ⟨tl⟩ := st
    cases tl <;> cases h1 : fn1 () <;> simp [Relayer.enqueue, Relayer.pThen, h1]

/-- C2: on every reachable dedupe state, each actor key has at most one
in-flight entry; a request while an entry is live is answered
`deduped: true` with the existing handle and enqueues nothing; a request
with no live entry creates a fresh entry wrapping a newly enqueued task;
settlement deletes the actor's entry, so the next request for that actor
is not deduped. -/
theorem C2_dedupe_at_most_one_in_flight (evs : List Relayer.MoveEv) (p : Relayer.JSString) :
    (∀ k, ((Relayer.runMoves evs).table.map Prod.fst).count k ≤ 1) ∧
    (∀ h, Relayer.lookupKey (Relayer.runMoves evs).table (Relayer.jsToLower p) = some h →
        Relayer.enqueueMoveOnce (Relayer.runMoves evs) p = ((true, h), Relayer.runMoves evs)) ∧
    (Relayer.lookupKey (Relayer.runMoves evs).table (Relayer.jsToLower p) = none →
        (Relayer.enqueueMoveOnce (Relayer.runMoves evs) p).1
            = (false, (Relayer.runMoves evs).nextId) ∧
        Relayer.lookupKey (Relayer.enqueueMoveOnce (Relayer.runMoves evs) p).2.table
            (Relayer.jsToLower p) = some (Relayer.runMoves evs).nextId ∧
        (Relayer.enqueueMoveOnce (Relayer.runMoves evs) p).2.queued
            = (Relayer.runMoves evs).queued ++ [(Relayer.runMoves evs).nextId]) ∧
    (Relayer.lookupKey
        (Relayer.settleMove (Relayer.runMoves evs) (Relayer.jsToLower p)).table
        (Relayer.jsToLower p) = none) ∧
    ((Relayer.enqueueMoveOnce
        (Relayer.settleMove (Relayer.runMoves evs) (Relayer.jsToLower p)) p).1.1 = false) := by
  have hnd : Relayer.keysNodup (Relayer.runMoves evs) := Relayer.runMoves_keysNodup evs
  have hsettle : Relayer.lookupKey
      (Relayer.settleMove (Relayer.runMoves evs) (Relayer.jsToLower p)).table
      (Relayer.jsToLower p) = none :=
    Relayer.lookupKey_eraseP_self (Relayer.runMoves evs).table (Relayer.jsToLower p) hnd
  refine ⟨?_, ?_, ?_, hsettle, ?_⟩
  · intro k
    exact Relayer.count_le_one_of_keysNodup hnd k
  · intro h hl
    exact Relayer.enqueueMoveOnce_of_some _ p h hl
  · intro hl
    rw [Relayer.enqueueMoveOnce_of_none _ p hl]
    exact ⟨rfl, Relayer.lookupKey_append_single _ _ _ hl, rfl⟩
  · rw [Relayer.enqueueMoveOnce_of_none _ p hsettle]

theorem C2_dedupe_at_most_one_in_flight_witness :
    Relayer.enqueueMoveOnce (Relayer.runMoves [Relayer.MoveEv.request ['a']]) ['a']
      = ((true, 0), Relayer.runMoves [Relayer.MoveEv.request ['a']]) :=
  (C2_dedupe_at_most_one_in_flight [Relayer.MoveEv.request ['a']] ['a']).2.1 0 (by decide)

/-- C10: the dedupe table is keyed by the lowercased actor address: two
move requests for case variants of one address use the same entry, so the
variant arriving while a submission is in flight is deduped onto the
existing handle, and one settlement clears the entry for every case
variant at once. -/
theorem C10_dedupe_key_is_lowercased (evs : List Relayer.MoveEv) (p1 p2 : Relayer.JSString)
    (hcase : Relayer.jsToLower p1 = Relayer.jsToLower p2)
    (hfree : Relayer.lookupKey (Relayer.runMoves evs).table (Relayer.jsToLower p1) = none) :
    ((Relayer.enqueueMoveOnce
        (Relayer.enqueueMoveOnce (Relayer.runMoves evs) p1).2 p2).1
      = (true, (Relayer.runMoves evs).nextId)) ∧
    (Relayer.lookupKey
        (Relayer.settleMove (Relayer.enqueueMoveOnce (Relayer.runMoves evs) p1).2
          (Relayer.jsToLower p1)).table (Relayer.jsToLower p2) = none) ∧
    ((Relayer.enqueueMoveOnce
        (Relayer.settleMove (Relayer.enqueueMoveOnce (Relayer.runMoves evs) p1).2
          (Relayer.jsToLower p1)) p2).1.1 = false) := by
  have hnd1 : Relayer.keysNodup (Relayer.enqueueMoveOnce (Relayer.runMoves evs) p1).2 :=
    Relayer.stepMove_preserves_keysNodup (Relayer.runMoves evs) (.request p1)
      (Relayer.runMoves_keysNodup evs)
  have hl1 : Relayer.lookupKey (Relayer.enqueueMoveOnce (Relayer.runMoves evs) p1).2.table
      (Relayer.jsToLower p2) = some (Relayer.runMoves evs).nextId := by
    rw [Relayer.enqueueMoveOnce_of_none _ p1 hfree]
    exact hcase ▸ Relayer.lookupKey_append_single _ _ _ hfree
  have hsettle : Relayer.lookupKey
      (Relayer.settleMove (Relayer.enqueueMoveOnce (Relayer.runMoves evs) p1).2
        (Relayer.jsToLower p1)).table (Relayer.jsToLower p2) = none := by
    rw [← hcase]
    exact Relayer.lookupKey_eraseP_self _ (Relayer.jsToLower p1) hnd1
  refine ⟨?_, hsettle, ?_⟩
  · rw [show Relayer.jsToLower p2 = Relayer.jsToLower p2 from rfl] at hl1
    rw [Relayer.enqueueMoveOnce_of_some _ p2 _ hl1]
  · rw [Relayer.enqueueMoveOnce_of_none _ p2 hsettle]

theorem C10_dedupe_key_is_lowercased_witness :
    (Relayer.enqueueMoveOnce
        (Relayer.enqueueMoveOnce (Relayer.runMoves []) ['0', 'x', 'A', 'B']).2
        ['0', 'x', 'a', 'b']).1
      = (true, (Relayer.runMoves []).nextId) :=
  (C10_dedupe_key_is_lowercased [] ['0', 'x', 'A', 'B'] ['0', 'x', 'a', 'b']
    (by decide) (by decide)).1

/-- C3: for every keccak function, chain id, arena address, player, nonce,
deadline and kind-specific payload, the relayer's `commonDomain`,
`digestJoin`, `digestMove` and `digestSetName` hash byte-identical packed
preimages to the Arena contract's `_commonDomain`, `_digestJoin`,
`_digestMove` and `_digestSetName`, so the digests are byte-identical. -/
theorem C3_relayer_digests_match_arena_contract
    (keccak : List Nat → List Nat)
    (chainId arenaAddress player dir nonce deadline : Nat)
    (nameBytes12 : List Nat) :
    Relayer.commonDomain keccak chainId arenaAddress
        = ArenaContract.commonDomain keccak chainId arenaAddress ∧
    Relayer.digestJoin keccak chainId arenaAddress player nonce deadline
        = ArenaContract.digestJoin keccak chainId arenaAddress player nonce deadline ∧
    Relayer.digestMove keccak chainId arenaAddress player dir nonce deadline
        = ArenaContract.digestMove keccak chainId arenaAddress player dir nonce deadline ∧
    Relayer.digestSetName keccak chainId arenaAddress player nameBytes12 nonce deadline
        = ArenaContract.digestSetName keccak chainId arenaAddress player nameBytes12 nonce deadline :=
  ⟨rfl, rfl, rfl, rfl⟩

/-- C4: for every recovery function, actor, digest and well-formed
signature (one the recovery succeeds on), `verifyBurnerSignature` returns
true iff the recovered actor equals the claimed actor up to ASCII letter
case, and returns false iff they differ; it is a pure function of its
inputs. -/
theorem C4_verify_iff_recovered_matches_case_insensitive
    (recoverMessage : Relayer.JSString → Relayer.JSString → Except Relayer.JSString Relayer.JSString)
    (player digest sig recovered : Relayer.JSString)
    (hrec : recoverMessage digest sig = .ok recovered) :
    (Relayer.verifyBurnerSignature recoverMessage player digest sig = .ok true ↔
        Relayer.EqCaseInsensitive recovered player) ∧
    (Relayer.verifyBurnerSignature recoverMessage player digest sig = .ok false ↔
        ¬ Relayer.EqCaseInsensitive recovered player) := by
  have hv : Relayer.verifyBurnerSignature recoverMessage player digest sig
      = .ok (Relayer.jsToLower recovered == Relayer.jsToLower player) := by
    unfold Relayer.verifyBurnerSignature
    rw [hrec]
  rw [hv]
  constructor
  · constructor
    · intro h
      have hb : (Relayer.jsToLower recovered == Relayer.jsToLower player) = true :=
        Except.ok.inj h
      exact (Relayer.jsToLower_eq_iff recovered player).mp (beq_iff_eq.mp hb)
    · intro h
      have hb : Relayer.jsToLower recovered = Relayer.jsToLower player :=
        (Relayer.jsToLower_eq_iff recovered player).mpr h
      rw [beq_iff_eq.mpr hb]
  · constructor
    · intro h hci
      have hb : Relayer.jsToLower recovered = Relayer.jsToLower player :=
        (Relayer.jsToLower_eq_iff recovered player).mpr hci
      rw [beq_iff_eq.mpr hb] at h
      exact Bool.noConfusion (Except.ok.inj h)
    · intro h
      have hb : (Relayer.jsToLower recovered == Relayer.jsToLower player) = false := by
        rcases hbe : (Relayer.jsToLower recovered == Relayer.jsToLower player) with _ | _
        · rfl
        · exact absurd ((Relayer.jsToLower_eq_iff recovered player).mp (beq_iff_eq.mp hbe)) h
      rw [hb]

theorem C4_verify_iff_recovered_matches_case_insensitive_witness :
    Relayer.verifyBurnerSignature (fun _ _ => Except.ok ['0', 'x', 'A'])
        ['0', 'x', 'a'] [] [] = Except.ok true :=
  ((C4_verify_iff_recovered_matches_case_insensitive (fun _ _ => Except.ok ['0', 'x', 'A'])
      ['0', 'x', 'a'] [] [] ['0', 'x', 'A'] rfl).1).mpr
    (List.Forall₂.cons (by decide)
      (List.Forall₂.cons (by decide)
        (List.Forall₂.cons (by decide) List.Forall₂.nil)))

/-- C5 counterexample: on the malformed signature `"0x12"` (not a valid
signature encoding), `verifyBurnerSignature` does not return false — the
recovery throws and, with no try/catch in the function, the exception
propagates. -/
theorem C5_counterexample_malformed_sig_does_not_return_false :
    Relayer.verifyBurnerSignature (Relayer.ethersVerifyMessageModel (fun _ _ => []))
        ['0', 'x', 'a'] [] ['0', 'x', '1', '2']
      = Except.error Relayer.invalidSignatureError ∧
    Relayer.verifyBurnerSignature (Relayer.ethersVerifyMessageModel (fun _ _ => []))
        ['0', 'x', 'a'] [] ['0', 'x', '1', '2'] ≠ Except.ok false := by
  refine ⟨rfl, fun h => ?_⟩
  rw [show Relayer.verifyBurnerSignature (Relayer.ethersVerifyMessageModel (fun _ _ => []))
      ['0', 'x', 'a'] [] ['0', 'x', '1', '2']
      = Except.error Relayer.invalidSignatureError from rfl] at h
  exact Except.noConfusion h

/-- C5 amended: for every malformed signature input the underlying
recovery throws and `verifyBurnerSignature` propagates that exception
unchanged (it returns no boolean at all, and in particular never true);
the enclosing route handlers catch it and answer 400. -/
theorem C5_amended_malformed_sig_propagates_exception :
    (∀ (recoverMessage : Relayer.JSString → Relayer.JSString → Except Relayer.JSString Relayer.JSString)
        (player digest sig e : Relayer.JSString),
        recoverMessage digest sig = .error e →
        Relayer.verifyBurnerSignature recoverMessage player digest sig = .error e) ∧
    (∀ (recover : Relayer.JSString → Relayer.JSString → Relayer.JSString)
        (player digest sig : Relayer.JSString),
        Relayer.wellFormedSigHex sig = false →
        Relayer.verifyBurnerSignature (Relayer.ethersVerifyMessageModel recover) player digest sig
          = Except.error Relayer.invalidSignatureError) := by
  constructor
  · intro recoverMessage player digest sig e he
    unfold Relayer.verifyBurnerSignature
    rw [he]
  · intro recover player digest sig hs
    unfold Relayer.verifyBurnerSignature Relayer.ethersVerifyMessageModel
    rw [hs]
    simp

theorem C5_amended_malformed_sig_propagates_exception_witness :
    Relayer.verifyBurnerSignature (Relayer.ethersVerifyMessageModel (fun _ _ => []))
        [] [] ['0', 'x', '1', '2'] = Except.error Relayer.invalidSignatureError :=
  C5_amended_malformed_sig_propagates_exception.2 (fun _ _ => []) [] []
    ['0', 'x', '1', '2'] (by decide)

/-- C7 counterexample: the error message `"nonce too low"` is an
ordering-conflict message, yet the `/join` handler answers 400 for it,
not 409 (only `/move` maps it to 409), so not every intent handler
surfaces ordering conflicts as 409. -/
theorem C7_counterexample_join_conflict_is_400 :
    Relayer.OrderingConflictMsg Relayer.nonceTooLowPattern ∧
    Relayer.joinCatchStatus Relayer.nonceTooLowPattern = 400 ∧
    Relayer.moveCatchStatus Relayer.nonceTooLowPattern = 409 := by
  refine ⟨Or.inr (Or.inl (by decide)), rfl, by decide⟩

/-- C7 amended: the `/move` handler answers 409 exactly when the
submission failure is an ordering conflict (message containing
`"higher priority"`, `"nonce too low"` or
`"replacement transaction underpriced"`, case-insensitively) and 400
otherwise, with no automatic retry; the `/join`, `/set-name` and `/kick`
handlers surface every submission failure as 400. -/
theorem C7_amended_only_move_maps_conflicts_to_409 :
    (∀ msg, Relayer.OrderingConflictMsg msg → Relayer.moveCatchStatus msg = 409) ∧
    (∀ msg, ¬ Relayer.OrderingConflictMsg msg → Relayer.moveCatchStatus msg = 400) ∧
    (∀ msg, Relayer.joinCatchStatus msg = 400) ∧
    (∀ msg, Relayer.setNameCatchStatus msg = 400) ∧
    (∀ msg, Relayer.kickCatchStatus msg = 400) := by
  refine ⟨?_, ?_, fun msg => rfl, fun msg => rfl, fun msg => rfl⟩
  · intro msg h
    have hcond : (Relayer.strIncludes (Relayer.jsToLower msg) Relayer.higherPriorityPattern
        || Relayer.strIncludes (Relayer.jsToLower msg) Relayer.nonceTooLowPattern
        || Relayer.strIncludes (Relayer.jsToLower msg) Relayer.replacementUnderpricedPattern)
        = true := by
      simp only [Bool.or_eq_true, Relayer.strIncludes_iff]
      rcases h with h | h | h
      · exact Or.inl (Or.inl h)
      · exact Or.inl (Or.inr h)
      · exact Or.inr h
    simp [Relayer.moveCatchStatus, hcond]
  · intro msg h
    rcases hb : (Relayer.strIncludes (Relayer.jsToLower msg) Relayer.higherPriorityPattern
        || Relayer.strIncludes (Relayer.jsToLower msg) Relayer.nonceTooLowPattern
        || Relayer.strIncludes (Relayer.jsToLower msg) Relayer.replacementUnderpricedPattern) with _ | _
    · simp [Relayer.moveCatchStatus, hb]
    · exfalso
      apply h
      simp only [Bool.or_eq_true, Relayer.strIncludes_iff] at hb
      rcases hb with (hb | hb) | hb
      · exact Or.inl hb
      · exact Or.inr (Or.inl hb)
      · exact Or.inr (Or.inr hb)

theorem C7_amended_only_move_maps_conflicts_to_409_witness :
    Relayer.moveCatchStatus Relayer.higherPriorityPattern = 409 :=
  C7_amended_only_move_maps_conflicts_to_409.1 Relayer.higherPriorityPattern
    (Or.inl (by decide))

/-- C8: for one origin key with no live entry, the fixed 2000 ms window
with max 25 admits requests 1 through 25 and rejects exactly the 26th with
429 when all 26 arrive within the first request's window, and any request
arriving strictly after an entry's window expiry resets the counter to 1
and is allowed. -/
theorem C8_rate_limiter_fixed_window (t0 : Nat) (ts : List Nat)
    (hwin : ∀ t ∈ ts, t ≤ t0 + Relayer.windowMs)
    (hlen : ts.length = 25) :
    Relayer.rateLimitRun (t0 :: ts) = List.replicate 25 true ++ [false] ∧
    (Relayer.rateLimitRun (t0 :: ts)).count false = 1 ∧
    (∀ (e : Relayer.IpEntry) (now : Nat), e.resetAt < now →
        Relayer.rateLimit (some e) now = (true, ⟨1, now + Relayer.windowMs⟩)) := by
  have hrun : Relayer.rateLimitRun (t0 :: ts)
      = true :: Relayer.rateLimitRunFrom (some ⟨1, t0 + Relayer.windowMs⟩) ts := rfl
  have hwin2 : ∀ t ∈ ts, ¬ t > t0 + Relayer.windowMs := by
    intro t ht
    exact Nat.not_lt_of_le (hwin t ht)
  have hbody := Relayer.rateLimitRunFrom_in_window (t0 + Relayer.windowMs) ts 1 hwin2
  have hfull : Relayer.rateLimitRun (t0 :: ts)
      = true :: (List.range 25).map (fun i => decide (1 + i + 1 ≤ Relayer.maxHits)) := by
    rw [hrun, hbody, hlen]
  have heval : true :: (List.range 25).map (fun i => decide (1 + i + 1 ≤ Relayer.maxHits))
      = List.replicate 25 true ++ [false] := by decide
  refine ⟨hfull.trans heval, ?_, ?_⟩
  · rw [hfull.trans heval]
    decide
  · intro e now hn
    simp [Relayer.rateLimit, hn]

theorem C8_rate_limiter_fixed_window_witness :
    Relayer.rateLimitRun (0 :: List.replicate 25 0) = List.replicate 25 true ++ [false] :=
  (C8_rate_limiter_fixed_window 0 (List.replicate 25 0)
    (fun t ht => by
      have : t = 0 := List.eq_of_mem_replicate ht
      omega)
    (by decide)).1

/-- C9 counterexample: the name `" tej"` (one leading space) has a UTF-8
encoding of 4 bytes, well within 12, yet encoding and decoding returns
`"tej"`, not the original name — `toBytes12FromName` trims whitespace
before encoding. -/
theorem C9_counterexample_leading_space_not_identity :
    (ArenaLib.utf8Encode [32, 116, 101, 106]).length ≤ 12 ∧
    ArenaLib.bytes12ToString (ArenaLib.toBytes12FromName [32, 116, 101, 106])
      = some [116, 101, 106] ∧
    some [116, 101, 106] ≠ some ([32, 116, 101, 106] : List Nat) := by
  refine ⟨by decide, ?_, by decide⟩
  have henc : ArenaLib.utf8Encode [116, 101, 106] = [116, 101, 106] := by decide
  have hdec : ArenaLib.utf8Decode [116, 101, 106] = some [116, 101, 106] := by
    have h := ArenaLib.utf8Decode_utf8Encode [116, 101, 106] (by decide)
    rwa [henc] at h
  have hstrip : ArenaLib.stripTrailingZeros (ArenaLib.toBytes12FromName [32, 116, 101, 106])
      = [116, 101, 106] := by decide
  unfold ArenaLib.bytes12ToString
  rw [hstrip, hdec]

/-- C9 amended: for every name already free of leading/trailing whitespace
(`trim` is the identity on it), whose code points are valid and whose last
code point is not NUL, and whose UTF-8 encoding fits in 12 bytes, encoding
with `toBytes12FromName` and decoding with `bytes12ToString` returns
exactly the original name; and a 13-or-more-character whitespace-free
ASCII name is truncated to its first 12 characters (12 bytes), producing a
full 12-byte payload with no padding. -/
theorem C9_amended_trimmed_name_roundtrip :
    (∀ name : List Nat,
        ArenaLib.jsTrim name = name →
        (ArenaLib.utf8Encode name).length ≤ 12 →
        (∀ c ∈ name, c < 1114112) →
        name.getLast? ≠ some 0 →
        ArenaLib.bytes12ToString (ArenaLib.toBytes12FromName name) = some name) ∧
    (∀ name : List Nat,
        ArenaLib.jsTrim name = name →
        13 ≤ name.length →
        (∀ c ∈ name, 0 < c ∧ c < 128) →
        ArenaLib.toBytes12FromName name = name.take 12 ∧
        (ArenaLib.toBytes12FromName name).length = 12) := by
  constructor
  · intro name htrim hfit hcp hz
    have hlen : name.length ≤ 12 :=
      le_trans (ArenaLib.length_le_utf8Encode_length name) hfit
    have hpad : ArenaLib.toBytes12FromName name
        = ArenaLib.utf8Encode name
            ++ List.replicate (12 - (ArenaLib.utf8Encode name).length) 0 := by
      simp only [ArenaLib.toBytes12FromName, htrim, List.take_of_length_le hlen]
      rw [if_neg (by omega)]
    rw [hpad]
    unfold ArenaLib.bytes12ToString
    rw [ArenaLib.stripTrailingZeros_append_replicate _ _
      (ArenaLib.utf8Encode_getLast?_ne_zero name hz)]
    exact ArenaLib.utf8Decode_utf8Encode name hcp
  · intro name htrim hlen13 hcp
    have hasc : ∀ c ∈ name.take 12, c < 128 :=
      fun c hc => (hcp c ((List.take_sublist 12 name).subset hc)).2
    have henc : ArenaLib.utf8Encode (name.take 12) = name.take 12 :=
      ArenaLib.utf8Encode_ascii _ hasc
    have hlen : (name.take 12).length = 12 := by
      rw [List.length_take]
      exact min_eq_left (by omega)
    have hmain : ArenaLib.toBytes12FromName name = name.take 12 := by
      have hmin : (12 : Nat) ⊓ name.length = 12 := min_eq_left (by omega)
      simp only [ArenaLib.toBytes12FromName, htrim, henc, hlen]
      rw [if_neg (by omega)]
      simp [hmin]
    exact ⟨hmain, by rw [hmain]; exact hlen⟩

theorem C9_amended_trimmed_name_roundtrip_witness :
    ArenaLib.bytes12ToString (ArenaLib.toBytes12FromName [116, 101, 106])
      = some [116, 101, 106] :=
  C9_amended_trimmed_name_roundtrip.1 [116, 101, 106] (by decide) (by decide)
    (by decide) (by decide)
